import Mathlib

/-!
Verification development for the lpkg repository (Rust).

The definitions below are shallow embeddings of the functions named in the
claims, translated from the Rust source files:
  * src/bin/metadata_indexer.rs  (split_name_variant, classify_phase,
    parse_numeric, extract_artifacts, normalize_whitespace, validate/index
    command flow)
  * src/pkgs/scaffolder.rs       (ensure_mod_entry, scaffold conflict message)
  * src/main.rs                  (MLFS ingestion loop around scaffold_package)
  * src/downloader.rs            (download_files thread/join structure)
  * src/pkgs/by_name/bi/binutils/parser.rs (download-url anchor selection)
  * src/pkgs/by_name/bi/binutils/cross_toolchain.rs (configure-arg token
    substitution)

Strings are modelled at the character level.  The Rust code manipulates UTF-8
byte slices, but every pattern the code searches for (`"-"`, `" - "`, `"$LFS"`,
archive suffixes, keyword phrases) is pure ASCII, and slicing always happens at
an ASCII byte, which in UTF-8 is always a character boundary; hence the
character-level model agrees with the byte-level code on all inputs.
Lower-casing is modelled with `Char.toLower`, which matches Rust on ASCII text
(all the keyword searches in the code are over ASCII command text).
-/

namespace LPkg

/-- Rust `str::trim` on a character list: drop whitespace from both ends. -/
def trimChars (cs : List Char) : List Char :=
  ((cs.dropWhile Char.isWhitespace).reverse.dropWhile Char.isWhitespace).reverse

/-- Rust `str::trim` lifted back to `String`. -/
def trimStr (s : String) : String :=
  String.mk (trimChars s.toList)

/-- Rust `str::to_lowercase` restricted to ASCII text (the code only
lower-cases ASCII command text and error messages). -/
def lowerStr (s : String) : String :=
  String.mk (s.toList.map Char.toLower)

/-- Substring occurrence test on character lists (`pat` occurs in the list). -/
def containsCh (pat : List Char) : List Char → Bool
  | [] => pat.isEmpty
  | c :: rest => pat.isPrefixOf (c :: rest) || containsCh pat rest

/-- Rust `str::contains(pat)`: substring test. -/
def containsStr (s pat : String) : Bool :=
  containsCh pat.toList s.toList

/-- Rust `str::ends_with(pat)` at the character level. -/
def endsWithStr (s pat : String) : Bool :=
  pat.toList.reverse.isPrefixOf s.toList.reverse

/-! ## classify_phase — src/bin/metadata_indexer.rs lines 1062-1075 -/

/-- `classify_phase` from src/bin/metadata_indexer.rs: keyword cascade over the
lower-cased `"\n"`-joined command text. -/
def classify_phase (commands : List String) : String :=
  let joined := lowerStr (String.intercalate "\n" commands)
  if containsStr joined "make install" then "install"
  else if containsStr joined "make -k check" || containsStr joined "make check" then "test"
  else if containsStr joined "configure" then "configure"
  else if containsStr joined "tar -xf" || containsStr joined "mkdir " then "setup"
  else "build"

/-! ## split_name_variant — src/bin/metadata_indexer.rs lines 698-722 -/

/-- Is `" - "` the next three characters at index `i`? (`base.rfind(" - ")`
probe used by `split_name_variant`). -/
def sepAt (cs : List Char) (i : Nat) : Bool :=
  (cs.drop i).take 3 == [' ', '-', ' ']

/-- Rust `str::rfind(" - ")`: index of the last occurrence, if any. -/
def lastSepIdx (cs : List Char) : Option Nat :=
  (List.range cs.length).foldl (fun acc i => if sepAt cs i then some i else acc) none

/-- Is `cs[i]` a `'-'` immediately followed by an ASCII digit? -/
def hyphenDigitAt (cs : List Char) (i : Nat) : Bool :=
  (cs.get? i == some '-') && ((cs.get? (i + 1)).map Char.isDigit).getD false

/-- The body of `split_name_variant`'s scan loop: walk indices `n-1, …, 0`
looking for a `'-'` followed by a digit that leaves a nonempty trimmed name and
version (the Rust `for idx in (0..bytes.len()).rev()` loop). -/
def scanVersionCut (cs : List Char) : Nat → Option (List Char × List Char)
  | 0 => none
  | n + 1 =>
    if hyphenDigitAt cs n then
      let name := trimChars (cs.take n)
      let ver := trimChars (cs.drop (n + 1))
      if name ≠ [] ∧ ver ≠ [] then some (name, ver) else scanVersionCut cs n
    else scanVersionCut cs n

/-- `split_name_variant` from src/bin/metadata_indexer.rs: trim the title,
strip an optional `" - "`-separated variant suffix (last occurrence), then scan
the remaining base from the right for the last `'-'` immediately followed by a
digit; fall back to version `"unknown"`. -/
def split_name_variant (title : String) : String × String × Option String :=
  let t := trimChars title.toList
  let bv : List Char × Option String :=
    match lastSepIdx t with
    | some idx => (trimChars (t.take idx), some (String.mk (trimChars (t.drop (idx + 3)))))
    | none => (t, none)
  match scanVersionCut bv.1 bv.1.length with
  | some nv => (String.mk nv.1, String.mk nv.2, bv.2)
  | none => (String.mk bv.1, "unknown", bv.2)

/-- Modelled from the claim text of C4 (not from the source): scan the whole
title from the right for the last `'-'` immediately followed by a digit;
everything before is the name, everything after is the remainder; if the
remainder contains `" - "`, the suffix after it is the variant and the prefix
is the version; with no such hyphen the version is `"unknown"` and the whole
title is the name. -/
def splitSpecC4 (title : String) : String × String × Option String :=
  let t := trimChars title.toList
  let cut := (List.range t.length).foldl
    (fun acc i => if hyphenDigitAt t i then some i else acc) none
  match cut with
  | some i =>
    let name := trimChars (t.take i)
    let rem := t.drop (i + 1)
    match lastSepIdx rem with
    | some j =>
      (String.mk name, String.mk (trimChars (rem.take j)),
        some (String.mk (trimChars (rem.drop (j + 3)))))
    | none => (String.mk name, String.mk (trimChars rem), none)
  | none => (String.mk t, "unknown", none)

/-- A cut index accepted by `split_name_variant`'s scan loop: a `'-'` followed
by a digit leaving a nonempty trimmed name and nonempty trimmed version. -/
def validCut (cs : List Char) (i : Nat) : Bool :=
  hyphenDigitAt cs i && (trimChars (cs.take i) != []) && (trimChars (cs.drop (i + 1)) != [])

/-- Modelled from the amended C4 claim: first strip the variant (suffix after
the last `" - "` of the trimmed title), then cut the remaining base at the
greatest index holding a `'-'` immediately followed by a digit that leaves a
nonempty trimmed name and version; with no such index the version is
`"unknown"` and the base is the name (the variant is kept either way). -/
def splitSpecC4Amended (title : String) : String × String × Option String :=
  let t := trimChars title.toList
  let bv : List Char × Option String :=
    match lastSepIdx t with
    | some idx => (trimChars (t.take idx), some (String.mk (trimChars (t.drop (idx + 3)))))
    | none => (t, none)
  match ((List.range bv.1.length).filter (fun i => validCut bv.1 i)).getLast? with
  | some i =>
    (String.mk (trimChars (bv.1.take i)), String.mk (trimChars (bv.1.drop (i + 1))), bv.2)
  | none => (String.mk bv.1, "unknown", bv.2)

/-- The downward scan loop of `split_name_variant` picks exactly the greatest
valid cut index below its bound. -/
theorem scanVersionCut_eq_getLast (cs : List Char) :
    ∀ n, scanVersionCut cs n =
      (((List.range n).filter (fun i => validCut cs i)).getLast?).map
        (fun i => (trimChars (cs.take i), trimChars (cs.drop (i + 1)))) := by
  intro n
  induction n with
  | zero => simp [scanVersionCut]
  | succ n ih =>
    rw [List.range_succ, List.filter_append]
    by_cases h1 : hyphenDigitAt cs n
    · by_cases h2 : trimChars (cs.take n) ≠ [] ∧ trimChars (cs.drop (n + 1)) ≠ []
      · have hv : validCut cs n = true := by
          simp [validCut, h1, h2.1, h2.2]
        simp [scanVersionCut, h1, h2, hv, List.getLast?_append]
      · have hv : validCut cs n = false := by
          rcases not_and_or.mp h2 with h | h <;> rw [not_not] at h <;>
            simp [validCut, h]
        simp [scanVersionCut, h1, h2, hv, ih]
    · have hv : validCut cs n = false := by
        simp [validCut, h1]
      simp [scanVersionCut, h1, hv, ih]

example : split_name_variant "Binutils-2.45 - Pass 1" = ("Binutils", "2.45", some "Pass 1") := by
  decide

example : split_name_variant "LFS-Bootscripts-20250827" = ("LFS-Bootscripts", "20250827", none) := by
  decide

example : split_name_variant "XML::Parser-2.47" = ("XML::Parser", "2.47", none) := by
  decide

example : split_name_variant "Foo - Bar-1.2" = ("Foo", "unknown", some "Bar-1.2") := by
  decide

example : splitSpecC4 "Foo - Bar-1.2" = ("Foo - Bar", "1.2", none) := by
  decide

/-- The two `match` tails of `split_name_variant` / `splitSpecC4Amended` agree
once the scan loop is rewritten as greatest-valid-index selection. -/
theorem splitTail_eq (b : List Char) (v : Option String) :
    (match scanVersionCut b b.length with
     | some nv => (String.mk nv.1, String.mk nv.2, v)
     | none => (String.mk b, "unknown", v)) =
    (match ((List.range b.length).filter (fun i => validCut b i)).getLast? with
     | some i =>
       (String.mk (trimChars (b.take i)), String.mk (trimChars (b.drop (i + 1))), v)
     | none => (String.mk b, "unknown", v)) := by
  rw [scanVersionCut_eq_getLast]
  cases ((List.range b.length).filter (fun i => validCut b i)).getLast? <;> simp

/-- C4 (counterexample): the claim's split order — version scan on the whole
title first, variant split on the remainder second — disagrees with the code on
the title `"Foo - Bar-1.2"`: `split_name_variant` strips the variant first and
returns `("Foo", "unknown", some "Bar-1.2")`, while the claim's algorithm
returns `("Foo - Bar", "1.2", none)`. -/
theorem C4_counterexample :
    split_name_variant "Foo - Bar-1.2" = ("Foo", "unknown", some "Bar-1.2")
    ∧ splitSpecC4 "Foo - Bar-1.2" = ("Foo - Bar", "1.2", none)
    ∧ split_name_variant "Foo - Bar-1.2" ≠ splitSpecC4 "Foo - Bar-1.2" := by
  refine ⟨by decide, by decide, by decide⟩

/-- C4 (amended): for every heading title, `split_name_variant` first strips
the variant — the suffix after the last `" - "` of the trimmed title — and then
cuts the remaining base at the greatest index holding a `'-'` immediately
followed by a digit that leaves a nonempty trimmed name and version; if no such
index exists the version is `"unknown"` and the base is the name, with the
variant kept either way. -/
theorem C4_split_name_variant_amended (title : String) :
    split_name_variant title = splitSpecC4Amended title := by
  unfold split_name_variant splitSpecC4Amended
  cases lastSepIdx (trimChars title.toList) <;> simpa using splitTail_eq _ _

/-- C6: `classify_phase` applies the fixed keyword precedence — `"make
install"` → install, else `"make -k check"`/`"make check"` → test, else
`"configure"` → configure, else `"tar -xf"`/`"mkdir "` → setup, else build —
to the lower-cased joined command text. -/
theorem C6_classify_phase_precedence (commands : List String) :
    (containsStr (lowerStr (String.intercalate "\n" commands)) "make install" = true →
      classify_phase commands = "install")
    ∧ (containsStr (lowerStr (String.intercalate "\n" commands)) "make install" = false →
        (containsStr (lowerStr (String.intercalate "\n" commands)) "make -k check" = true ∨
          containsStr (lowerStr (String.intercalate "\n" commands)) "make check" = true) →
        classify_phase commands = "test")
    ∧ (containsStr (lowerStr (String.intercalate "\n" commands)) "make install" = false →
        containsStr (lowerStr (String.intercalate "\n" commands)) "make -k check" = false →
        containsStr (lowerStr (String.intercalate "\n" commands)) "make check" = false →
        containsStr (lowerStr (String.intercalate "\n" commands)) "configure" = true →
        classify_phase commands = "configure")
    ∧ (containsStr (lowerStr (String.intercalate "\n" commands)) "make install" = false →
        containsStr (lowerStr (String.intercalate "\n" commands)) "make -k check" = false →
        containsStr (lowerStr (String.intercalate "\n" commands)) "make check" = false →
        containsStr (lowerStr (String.intercalate "\n" commands)) "configure" = false →
        (containsStr (lowerStr (String.intercalate "\n" commands)) "tar -xf" = true ∨
          containsStr (lowerStr (String.intercalate "\n" commands)) "mkdir " = true) →
        classify_phase commands = "setup")
    ∧ (containsStr (lowerStr (String.intercalate "\n" commands)) "make install" = false →
        containsStr (lowerStr (String.intercalate "\n" commands)) "make -k check" = false →
        containsStr (lowerStr (String.intercalate "\n" commands)) "make check" = false →
        containsStr (lowerStr (String.intercalate "\n" commands)) "configure" = false →
        containsStr (lowerStr (String.intercalate "\n" commands)) "tar -xf" = false →
        containsStr (lowerStr (String.intercalate "\n" commands)) "mkdir " = false →
        classify_phase commands = "build") := by
  unfold classify_phase
  refine ⟨?_, ?_, ?_, ?_, ?_⟩ <;> intros <;> simp_all

/-- C6 witness: the claim's four sample command lists, classified through
`C6_classify_phase_precedence`, plus a test-phase sample. -/
theorem C6_classify_phase_precedence_witness :
    classify_phase ["./configure --prefix=/usr"] = "configure"
    ∧ classify_phase ["make", "make install"] = "install"
    ∧ classify_phase ["tar -xf foo.tar.xz"] = "setup"
    ∧ classify_phase ["echo hi"] = "build"
    ∧ classify_phase ["make check"] = "test" :=
  ⟨(C6_classify_phase_precedence _).2.2.1 (by decide) (by decide) (by decide) (by decide),
   (C6_classify_phase_precedence _).1 (by decide),
   (C6_classify_phase_precedence _).2.2.2.1 (by decide) (by decide) (by decide) (by decide)
     (Or.inl (by decide)),
   (C6_classify_phase_precedence _).2.2.2.2 (by decide) (by decide) (by decide) (by decide)
     (by decide) (by decide),
   (C6_classify_phase_precedence _).2.1 (by decide) (Or.inr (by decide))⟩

/-! ## normalize_whitespace, parse_numeric, extract_artifacts —
src/bin/metadata_indexer.rs lines 659-674, 985-1023 -/

/-- The character loop of `normalize_whitespace`: collapse whitespace runs to a
single ASCII space (`prev_space` is the loop state). -/
def normWsGo : Bool → List Char → List Char
  | _, [] => []
  | prevSpace, c :: rest =>
    if c.isWhitespace then
      if prevSpace then normWsGo true rest else ' ' :: normWsGo true rest
    else c :: normWsGo false rest

/-- `normalize_whitespace` from src/bin/metadata_indexer.rs: collapse
whitespace runs, then trim the ends. -/
def normalize_whitespace (s : String) : String :=
  String.mk (trimChars (normWsGo false s.toList))

/-- Leading ASCII-digit run of a character list. -/
def takeDigits (cs : List Char) : List Char :=
  cs.takeWhile Char.isDigit

/-- The capture of the Rust regex `([0-9]+(?:\\.[0-9]+)?)` at the leftmost
match.  NOTE: inside the Rust raw string, `\\.` is the two-character escape
`\\` followed by `.` — it matches one literal backslash character and then any
non-newline character, NOT a decimal point.  So the optional fractional group
only fires after a literal `'\'` in the input. -/
def firstNumericToken : List Char → Option (List Char)
  | [] => none
  | c :: rest =>
    if c.isDigit then
      let ds := takeDigits (c :: rest)
      let rest2 := (c :: rest).dropWhile Char.isDigit
      some (match rest2 with
        | '\\' :: c2 :: rest3 =>
          if c2 ≠ '\n' ∧ takeDigits rest3 ≠ [] then ds ++ '\\' :: c2 :: takeDigits rest3
          else ds
        | _ => ds)
    else firstNumericToken rest

/-- Numeric value of a digit string. -/
def digitsVal (cs : List Char) : Nat :=
  cs.foldl (fun n c => 10 * n + (c.toNat - '0'.toNat)) 0

/-- Rust `str::parse::<f64>()` on the shapes `firstNumericToken` can produce:
a pure digit run parses to its (exact, for the magnitudes in the book pages)
value; a token containing the literal backslash fails to parse.  The value is
modelled as a rational. -/
def rustF64OfToken (tok : List Char) : Option ℚ :=
  if tok ≠ [] ∧ tok.all Char.isDigit then some ((digitsVal tok : ℕ) : ℚ) else none

/-- `parse_numeric` from src/bin/metadata_indexer.rs lines 1018-1023. -/
def parse_numeric (input : String) : Option ℚ :=
  (firstNumericToken input.toList).bind rustF64OfToken

/-- Rust `as i64` truncation toward zero (saturation is irrelevant at the
magnitudes involved). -/
def truncToInt (v : ℚ) : ℤ :=
  if 0 ≤ v then ⌊v⌋ else ⌈v⌉

/-- `extract_artifacts` from src/bin/metadata_indexer.rs lines 985-1016,
modelled over the document's list of `div.seg` entries as (segtitle text,
segbody text) pairs. -/
def extract_artifacts (segs : List (String × String)) : Option ℚ × Option ℤ :=
  segs.foldl
    (fun acc seg =>
      let title := normalize_whitespace seg.1
      let body := normalize_whitespace seg.2
      if containsStr title "Approximate build time" then
        match parse_numeric body with
        | some v => (some v, acc.2)
        | none => acc
      else if containsStr title "Required disk space" then
        match parse_numeric body with
        | some v => (acc.1, some (truncToInt v))
        | none => acc
      else acc)
    (none, none)

/-- C5 (code bug): for the segment body `"1.5 SBU"` the harvested sbu is `1`,
not `1.5` — the broken regex (`\\.` instead of `\.` inside a raw string) never
matches the decimal point, so the fractional part is dropped. -/
theorem C5_fractional_part_dropped :
    parse_numeric "1.5 SBU" = some 1
    ∧ extract_artifacts [("Approximate build time", "1.5 SBU")] = (some 1, none)
    ∧ extract_artifacts [("Approximate build time", "1.5 SBU")] ≠ (some (3 / 2 : ℚ), none) := by
  refine ⟨by decide, by decide, ?_⟩
  intro h
  have h15 : (1 : ℚ) = 3 / 2 := by
    have h0 : extract_artifacts [("Approximate build time", "1.5 SBU")] = (some 1, none) := by
      decide
    simpa [h0] using h
  norm_num at h15

/-! ## validate / index command flow — src/bin/metadata_indexer.rs
lines 69-156, 239-277 -/

/-- Denormalized per-file summary (`PackageSummary` in
src/bin/metadata_indexer.rs). -/
structure PackageSummary where
  schema_version : String
  id : String
  name : String
  version : String
  stage : Option String
  book : String
  variant : Option String
  status : String
  relative_path : String
deriving DecidableEq

/-- A scanned metadata file (`PackageRecord` in src/bin/metadata_indexer.rs):
its path, the JSON-Schema engine's error list for its contents (empty when the
file validates), and the summary-extraction outcome exactly as `scan_packages`
stores it. -/
structure PackageRecord where
  relative_path : String
  schemaErrors : List String
  summary : Option PackageSummary
  summaryError : Option String
deriving DecidableEq

/-- The stderr lines `main`'s validation loop prints for one file. -/
def fileErrorLines (p : PackageRecord) : List String :=
  (if p.schemaErrors.isEmpty then []
   else ("Schema validation failed for " ++ p.relative_path ++ ":") ::
     p.schemaErrors.map (fun e => "  - " ++ e))
  ++ (match p.summaryError with
      | some err => ["Summary extraction failed for " ++ p.relative_path ++ ": " ++ err]
      | none => [])

/-- Did this file fail schema validation or summary extraction? -/
def badFile (p : PackageRecord) : Bool :=
  !p.schemaErrors.isEmpty || p.summaryError.isSome

/-- The validation loop of `main` (lines 79-101): visits every record,
accumulating the printed error lines and the `had_errors` flag. -/
def reportLoop (pkgs : List PackageRecord) : List String × Bool :=
  pkgs.foldl (fun acc p => (acc.1 ++ fileErrorLines p, acc.2 || badFile p)) ([], false)

/-- The `validate` subcommand (lines 104-108): bail iff `had_errors`. -/
def runValidate (pkgs : List PackageRecord) : Except String Unit :=
  if (reportLoop pkgs).2 then Except.error "metadata validation failed" else Except.ok ()

/-- The regenerated `index.json` content (`generated_at` is a wall-clock stamp
and is outside the model). -/
structure IndexFile where
  schema_version : String
  packages : List PackageSummary
deriving DecidableEq

/-- Index construction (lines 114-145): summaries of all records in walk
order, schema version from the first summary or `"v0.0.0"`. -/
def buildIndex (pkgs : List PackageRecord) : IndexFile :=
  let summaries := pkgs.filterMap (fun p => p.summary)
  { schema_version := ((summaries.head?).map (fun s => s.schema_version)).getD "v0.0.0",
    packages := summaries }

/-- The `index` subcommand (lines 109-156): bail before writing iff
`had_errors`; returns the exit outcome and the resulting `index.json` state
(`prev` is its state before the run). -/
def runIndex (pkgs : List PackageRecord) (prev : Option IndexFile) :
    Except String Unit × Option IndexFile :=
  if (reportLoop pkgs).2 then
    (Except.error "metadata validation failed; index not updated", prev)
  else (Except.ok (), some (buildIndex pkgs))

/-- C3: the validate/index loop accumulates the error output of every scanned
file (no short-circuit), `validate` and `index` exit non-zero exactly when some
file failed schema validation or summary extraction, and `index` writes
`index.json` exactly when no such error exists — leaving it unchanged
otherwise. -/
theorem C3_validate_index_accumulation (pkgs : List PackageRecord)
    (prev : Option IndexFile) :
    (reportLoop pkgs).1 = pkgs.flatMap fileErrorLines
    ∧ (reportLoop pkgs).2 = pkgs.any badFile
    ∧ runValidate pkgs =
        (if pkgs.any badFile then Except.error "metadata validation failed" else Except.ok ())
    ∧ (runIndex pkgs prev).2 = (if pkgs.any badFile then prev else some (buildIndex pkgs))
    ∧ (runIndex pkgs prev).1 =
        (if pkgs.any badFile then Except.error "metadata validation failed; index not updated"
         else Except.ok ()) := by
  have key : ∀ (l : List PackageRecord) (lines : List String) (b : Bool),
      l.foldl (fun acc p => (acc.1 ++ fileErrorLines p, acc.2 || badFile p)) (lines, b)
        = (lines ++ l.flatMap fileErrorLines, b || l.any badFile) := by
    intro l
    induction l with
    | nil => intro lines b; simp
    | cons p t ih => intro lines b; simp [ih, List.append_assoc, Bool.or_assoc]
  have hrep : reportLoop pkgs = (pkgs.flatMap fileErrorLines, pkgs.any badFile) := by
    simpa [reportLoop] using key pkgs [] false
  have h2 : (reportLoop pkgs).2 = pkgs.any badFile := by simp [hrep]
  refine ⟨by simp [hrep], h2, ?_, ?_, ?_⟩ <;>
    simp only [runValidate, runIndex, h2] <;> split <;> simp_all

/-! ## ensure_mod_entry — src/pkgs/scaffolder.rs lines 82-101 -/

/-- The registry line `pub mod <module>;` (without trailing newline). -/
def modEntry (module : String) : String :=
  "pub mod " ++ module ++ ";"

/-- `ensure_mod_entry` from src/pkgs/scaffolder.rs, over the registry file
state (`none` = file absent).  Append-if-missing with a substring check; the
Rust code tests `contents.contains(&entry) || contents.contains(entry.trim())`,
and `entry` has no surrounding whitespace, so the second test equals the
first.  `writeln!` / `fs::write` both append the entry plus a newline. -/
def ensure_mod_entry (module : String) : Option String → Option String
  | some contents =>
    if containsStr contents (modEntry module) then some contents
    else some (contents ++ modEntry module ++ "\n")
  | none => some (modEntry module ++ "\n")

/-- Number of positions at which `pat` occurs as a substring. -/
def countSub (pat : List Char) : List Char → Nat
  | [] => 0
  | c :: rest => (if pat.isPrefixOf (c :: rest) then 1 else 0) + countSub pat rest

/-- Occurrence count on strings: positions of `s` where `pat` starts. -/
def countOccur (s pat : String) : Nat :=
  countSub pat.toList s.toList

/-- The fixed head of every registry entry. -/
def entryHead : List Char := ['p', 'u', 'b', ' ', 'm', 'o', 'd', ' ']

/-- `modEntry` at the character level. -/
def entryCh (m : String) : List Char := entryHead ++ m.toList ++ [';']

theorem modEntry_toList (m : String) : (modEntry m).toList = entryCh m := by
  have h1 : "pub mod ".toList = entryHead := by decide
  have h2 : ";".toList = [';'] := by decide
  calc (modEntry m).toList
      = "pub mod ".toList ++ m.toList ++ ";".toList := by
        simp [modEntry, String.toList, String.data_append]
    _ = entryCh m := by rw [h1, h2, entryCh]

theorem toList_append (a b : String) : (a ++ b).toList = a.toList ++ b.toList := rfl

theorem containsCh_eq_true_iff (pat : List Char) :
    ∀ s : List Char, containsCh pat s = true ↔ pat <:+: s := by
  intro s
  induction s with
  | nil =>
    simp only [containsCh, List.isEmpty_iff]
    constructor
    · intro h; rw [h]
    · intro h; exact List.eq_nil_of_infix_nil h
  | cons c rest ih =>
    simp [containsCh, List.infix_cons_iff, ih, List.isPrefixOf_iff_prefix]

theorem countSub_eq_zero_of_short (pat : List Char) :
    ∀ s : List Char, s.length < pat.length → countSub pat s = 0 := by
  intro s
  induction s with
  | nil => intro _; simp [countSub]
  | cons c rest ih =>
    intro h
    have hlt : rest.length < pat.length := by
      simp only [List.length_cons] at h; omega
    have hnp : pat.isPrefixOf (c :: rest) = false := by
      cases hp : pat.isPrefixOf (c :: rest)
      · rfl
      · exfalso
        have hle := (List.isPrefixOf_iff_prefix.mp hp).length_le
        simp only [List.length_cons] at hle h
        omega
    simp [countSub, hnp, ih hlt]

theorem countSub_eq_zero_iff (pat : List Char) (hp : pat ≠ []) :
    ∀ s, countSub pat s = 0 ↔ containsCh pat s = false := by
  intro s
  induction s with
  | nil => simp [countSub, containsCh, List.isEmpty_iff, hp]
  | cons c rest ih =>
    cases hb : pat.isPrefixOf (c :: rest) <;> simp [countSub, containsCh, hb, ih]

theorem countSub_entry_self (m : String) :
    countSub (entryCh m) (entryCh m ++ ['\n']) = 1 := by
  have hne : entryCh m ≠ [] := by simp [entryCh, entryHead]
  have hcons : entryCh m =
      'p' :: ((['u', 'b', ' ', 'm', 'o', 'd', ' '] ++ m.toList) ++ [';']) := rfl
  have hself : (entryCh m).isPrefixOf (entryCh m ++ ['\n']) = true :=
    List.isPrefixOf_iff_prefix.mpr (List.prefix_append _ _)
  have hrest : containsCh (entryCh m)
      (((['u', 'b', ' ', 'm', 'o', 'd', ' '] ++ m.toList) ++ [';']) ++ ['\n']) = false := by
    cases hc : containsCh (entryCh m)
        (((['u', 'b', ' ', 'm', 'o', 'd', ' '] ++ m.toList) ++ [';']) ++ ['\n'])
    · rfl
    · exfalso
      have hinf := (containsCh_eq_true_iff _ _).mp hc
      have hlen : (entryCh m).length
          = ((((['u', 'b', ' ', 'm', 'o', 'd', ' '] ++ m.toList) ++ [';']) ++ ['\n'])).length := by
        simp [entryCh, entryHead]
      have heq := hinf.sublist.eq_of_length hlen
      have hhead := congrArg List.head? heq
      rw [hcons] at hhead
      simp at hhead
  calc countSub (entryCh m) (entryCh m ++ ['\n'])
      = (if (entryCh m).isPrefixOf (entryCh m ++ ['\n']) then 1 else 0)
        + countSub (entryCh m)
            (((['u', 'b', ' ', 'm', 'o', 'd', ' '] ++ m.toList) ++ [';']) ++ ['\n']) := by
        conv_lhs => rw [show entryCh m ++ ['\n'] =
          'p' :: ((((['u', 'b', ' ', 'm', 'o', 'd', ' '] ++ m.toList) ++ [';']) ++ ['\n'])) from rfl]
        rw [countSub]
        rfl
    _ = 1 := by
        rw [hself, (countSub_eq_zero_iff _ hne _).mpr hrest]
        simp

/-- Appending `entry ++ "\n"` to a text free of `entry` yields exactly one
occurrence: the registry entry `pub mod <m>;` ends in its only `';'` (for a
`';'`-free module name), so no occurrence can straddle the append boundary. -/
theorem countSub_append_entry (m : String) (hm : ';' ∉ m.toList) :
    ∀ a : List Char, containsCh (entryCh m) a = false →
      countSub (entryCh m) (a ++ (entryCh m ++ ['\n'])) = 1 := by
  intro a
  induction a with
  | nil =>
    intro _
    simpa using countSub_entry_self m
  | cons c a' ih =>
    intro ha
    have hsplit : (entryCh m).isPrefixOf (c :: a') = false
        ∧ containsCh (entryCh m) a' = false := by
      have h0 := ha
      simp only [containsCh, Bool.or_eq_false_iff] at h0
      exact h0
    have hpre : (entryCh m).isPrefixOf ((c :: a') ++ (entryCh m ++ ['\n'])) = false := by
      cases hp : (entryCh m).isPrefixOf ((c :: a') ++ (entryCh m ++ ['\n']))
      · rfl
      · exfalso
        have hinf : entryCh m <+: (c :: a') ++ (entryCh m ++ ['\n']) :=
          List.isPrefixOf_iff_prefix.mp hp
        have htake := List.prefix_iff_eq_take.mp hinf
        rcases le_or_lt (entryCh m).length (c :: a').length with hle | hgt
        · rw [List.take_append_of_le_length hle] at htake
          have hpre2 : entryCh m <+: c :: a' := htake ▸ List.take_prefix _ _
          have hcon := (containsCh_eq_true_iff _ _).mpr hpre2.isInfix
          rw [ha] at hcon
          exact Bool.false_ne_true hcon
        · rw [List.take_append_eq_append_take, List.take_of_length_le (le_of_lt hgt)] at htake
          set k := (entryCh m).length - (c :: a').length with hkdef
          have hk1 : 1 ≤ k := by omega
          have hkLen : k ≤ (entryCh m).length := by omega
          have hkTop : k ≤ (entryCh m).length - 1 := by
            have h1 : 1 ≤ (c :: a').length := by simp
            omega
          have htk : (entryCh m ++ ['\n']).take k = (entryCh m).take k :=
            List.take_append_of_le_length hkLen
          rw [htk] at htake
          have hlast : (entryCh m).getLast? = some ';' := by
            rw [show entryCh m = (entryHead ++ m.toList) ++ [';'] by simp [entryCh]]
            exact List.getLast?_concat _
          have htne : (entryCh m).take k ≠ [] := by
            intro h0
            have h1 := congrArg List.length h0
            simp only [List.length_take, List.length_nil] at h1
            rw [min_eq_left hkLen] at h1
            omega
          have hlast2 : ((entryCh m).take k).getLast? = some ';' := by
            conv at hlast => rw [htake]
            rwa [List.getLast?_append_of_ne_nil _ htne] at hlast
          have hmem : ';' ∈ (entryCh m).take k := List.mem_of_mem_getLast? hlast2
          have hsubeq : (entryCh m).take k
              = ((entryCh m).take ((entryCh m).length - 1)).take k := by
            rw [List.take_take]
            congr 1
            omega
          have hmem2 : ';' ∈ (entryCh m).take ((entryCh m).length - 1) := by
            rw [hsubeq] at hmem
            exact List.take_subset _ _ hmem
          have hTL : (entryCh m).take ((entryCh m).length - 1) = entryHead ++ m.toList := by
            rw [show entryCh m = (entryHead ++ m.toList) ++ [';'] by simp [entryCh]]
            rw [show ((entryHead ++ m.toList) ++ [';']).length - 1
              = (entryHead ++ m.toList).length by simp]
            exact List.take_left _ _
          rw [hTL] at hmem2
          rcases List.mem_append.mp hmem2 with h | h
          · simp [entryHead] at h
          · exact hm h
    have hstep : countSub (entryCh m) ((c :: a') ++ (entryCh m ++ ['\n']))
        = (if (entryCh m).isPrefixOf ((c :: a') ++ (entryCh m ++ ['\n'])) = true then 1 else 0)
          + countSub (entryCh m) (a' ++ (entryCh m ++ ['\n'])) := rfl
    rw [hstep, hpre, ih hsplit.2]
    simp

/-- After any `ensure_mod_entry` run the registry contains the entry. -/
theorem containsStr_append_entry (contents m : String) :
    containsStr (contents ++ modEntry m ++ "\n") (modEntry m) = true := by
  apply (containsCh_eq_true_iff _ _).mpr
  have hnl : "\n".toList = ['\n'] := by decide
  have heq : (contents ++ modEntry m ++ "\n").toList
      = contents.toList ++ (modEntry m).toList ++ ['\n'] := by
    rw [toList_append, toList_append, hnl]
  rw [heq]
  exact ⟨contents.toList, ['\n'], by simp⟩

/-- `ensure_mod_entry` on a file already containing the entry is the identity. -/
theorem ensure_some_of_contains (module s : String)
    (h : containsStr s (modEntry module) = true) :
    ensure_mod_entry module (some s) = some s := by
  show (if containsStr s (modEntry module) = true then some s
    else some (s ++ modEntry module ++ "\n")) = _
  rw [h]
  simp

/-- `ensure_mod_entry` on a file missing the entry appends it plus a newline. -/
theorem ensure_some_of_not_contains (module s : String)
    (h : containsStr s (modEntry module) = false) :
    ensure_mod_entry module (some s) = some (s ++ modEntry module ++ "\n") := by
  show (if containsStr s (modEntry module) = true then some s
    else some (s ++ modEntry module ++ "\n")) = _
  rw [h]
  simp

/-- A fresh registry written by `ensure_mod_entry` contains its entry. -/
theorem containsStr_fresh_entry (module : String) :
    containsStr (modEntry module ++ "\n") (modEntry module) = true := by
  apply (containsCh_eq_true_iff _ _).mpr
  have hnl : "\n".toList = ['\n'] := by decide
  have heq : (modEntry module ++ "\n").toList = (modEntry module).toList ++ ['\n'] := by
    rw [toList_append, hnl]
  rw [heq]
  exact ⟨[], ['\n'], by simp⟩

/-- `ensure_mod_entry` is idempotent for every module name and file state. -/
theorem ensure_mod_entry_idem (module : String) (file : Option String) :
    ensure_mod_entry module (ensure_mod_entry module file) = ensure_mod_entry module file := by
  cases file with
  | none =>
    have h1 : ensure_mod_entry module none = some (modEntry module ++ "\n") := rfl
    rw [h1]
    exact ensure_some_of_contains module _ (containsStr_fresh_entry module)
  | some contents =>
    by_cases hc : containsStr contents (modEntry module) = true
    · rw [ensure_some_of_contains module contents hc]
      exact ensure_some_of_contains module contents hc
    · have hc' : containsStr contents (modEntry module) = false := by
        cases h : containsStr contents (modEntry module)
        · rfl
        · exact absurd h hc
      rw [ensure_some_of_not_contains module contents hc']
      exact ensure_some_of_contains module _ (containsStr_append_entry contents module)

/-- C8 (counterexample): a registry file that already holds the line twice
still holds it twice after two `ensure_mod_entry` runs — "exactly one `pub mod
<name>;` line for every registry file state" fails. -/
theorem C8_counterexample :
    ensure_mod_entry "foo" (ensure_mod_entry "foo" (some "pub mod foo;\npub mod foo;\n"))
      = some "pub mod foo;\npub mod foo;\n"
    ∧ countOccur "pub mod foo;\npub mod foo;\n" (modEntry "foo") = 2 := by
  refine ⟨by decide, by decide⟩

/-- C8 (amended): `ensure_mod_entry` is idempotent — the second run with the
same module name never appends a second copy — and for a `';'`-free module name
(every sanitized module name is) and a registry state not yet containing the
entry, two runs leave a file holding exactly one occurrence of
`pub mod <name>;`. -/
theorem C8_registry_update_amended (module : String) (file : Option String)
    (contents : String) :
    ensure_mod_entry module (ensure_mod_entry module file) = ensure_mod_entry module file
    ∧ (';' ∉ module.toList → containsStr contents (modEntry module) = false →
        ensure_mod_entry module (ensure_mod_entry module (some contents))
          = some (contents ++ modEntry module ++ "\n")
        ∧ countOccur (contents ++ modEntry module ++ "\n") (modEntry module) = 1) := by
  refine ⟨ensure_mod_entry_idem module file, fun hm hc => ⟨?_, ?_⟩⟩
  · rw [ensure_some_of_not_contains module contents hc]
    exact ensure_some_of_contains module _ (containsStr_append_entry contents module)
  · have hnl : "\n".toList = ['\n'] := by decide
    have heq : (contents ++ modEntry module ++ "\n").toList
        = contents.toList ++ ((modEntry module).toList ++ ['\n']) := by
      rw [toList_append, toList_append, hnl, List.append_assoc]
    have ha : containsCh (entryCh module) contents.toList = false := by
      have h0 := hc
      unfold containsStr at h0
      rwa [modEntry_toList] at h0
    unfold countOccur
    rw [heq, modEntry_toList]
    exact countSub_append_entry module hm contents.toList ha

/-- C8 witness: module `"foo"` against a registry holding only `pub mod
bar;`. -/
theorem C8_registry_update_amended_witness :
    ensure_mod_entry "foo" (ensure_mod_entry "foo" (some "pub mod bar;\n"))
      = ensure_mod_entry "foo" (some "pub mod bar;\n")
    ∧ ensure_mod_entry "foo" (ensure_mod_entry "foo" (some "pub mod bar;\n"))
        = some ("pub mod bar;\n" ++ modEntry "foo" ++ "\n")
    ∧ countOccur ("pub mod bar;\n" ++ modEntry "foo" ++ "\n") (modEntry "foo") = 1 := by
  have h := C8_registry_update_amended "foo" (some "pub mod bar;\n") "pub mod bar;\n"
  exact ⟨h.1, h.1.trans (h.2 (by decide) (by decide)).1.symm ▸ (h.2 (by decide) (by decide)).1,
    (h.2 (by decide) (by decide)).2⟩

/-! ## MLFS ingestion skip-vs-abort — src/main.rs lines 414-441 and
src/pkgs/scaffolder.rs lines 61-64 -/

/-- Outcome of one `scaffold_package` call. -/
inductive ScaffoldOutcome where
  | ok : ScaffoldOutcome
  | err : String → ScaffoldOutcome
deriving DecidableEq

/-- The `created` counter and `skipped` list of `run_workflow`. -/
structure IngestState where
  created : Nat
  skipped : List String
deriving DecidableEq

/-- src/main.rs lines 433-434:
`err.to_string().to_lowercase().contains("already exists")`. -/
def isAlreadyExists (msg : String) : Bool :=
  containsStr (lowerStr msg) "already exists"

/-- The scaffold-conflict message of src/pkgs/scaffolder.rs line 63:
`format!("package module {:?} already exists", package_dir)`. -/
def scaffoldExistsMsg (dir : String) : String :=
  "package module \"" ++ dir ++ "\" already exists"

/-- The per-record loop of `run_workflow` (src/main.rs lines 414-441)
restricted to the scaffold outcome handling: each record carries its module
alias and its scaffold outcome; `Except.error` models the `return Err(err)`
abort of the whole run. -/
def run_workflow (overwrite : Bool) :
    List (String × ScaffoldOutcome) → IngestState → Except String IngestState
  | [], st => Except.ok st
  | (al, outc) :: rest, st =>
    match outc with
    | ScaffoldOutcome.ok => run_workflow overwrite rest ⟨st.created + 1, st.skipped⟩
    | ScaffoldOutcome.err msg =>
      if isAlreadyExists msg && !overwrite then
        run_workflow overwrite rest ⟨st.created, st.skipped ++ [al]⟩
      else Except.error msg

/-- The scaffolder's conflict message always triggers the ingestion loop's
"already exists" test, whatever the offending path is. -/
theorem isAlreadyExists_scaffoldMsg (dir : String) :
    isAlreadyExists (scaffoldExistsMsg dir) = true := by
  unfold isAlreadyExists
  apply (containsCh_eq_true_iff _ _).mpr
  have h1 : (lowerStr (scaffoldExistsMsg dir)).toList
      = ("package module \"".toList.map Char.toLower) ++ (dir.toList.map Char.toLower)
        ++ ("\" already exists".toList.map Char.toLower) := by
    show ("package module \"" ++ dir ++ "\" already exists").toList.map Char.toLower = _
    rw [toList_append, toList_append]
    simp [List.map_append]
  rw [h1]
  have h2 : ("\" already exists".toList.map Char.toLower)
      = '"' :: ' ' :: "already exists".toList := by decide
  rw [h2]
  refine ⟨"package module \"".toList.map Char.toLower ++ dir.toList.map Char.toLower
    ++ ['"', ' '], [], by simp⟩

/-- C9: in the MLFS ingestion loop a scaffold failure whose message carries
"already exists" is skipped (alias recorded) and the run continues when the
overwrite flag is off; the same failure aborts the run when the flag is on; any
other scaffold error aborts the run regardless of the flag; a success bumps the
created counter; and the scaffolder's conflict message always matches the
"already exists" test. -/
theorem C9_ingest_skip_vs_abort (overwrite : Bool)
    (rest : List (String × ScaffoldOutcome)) (st : IngestState) (al msg dir : String) :
    (isAlreadyExists msg = true →
      run_workflow false ((al, ScaffoldOutcome.err msg) :: rest) st
        = run_workflow false rest ⟨st.created, st.skipped ++ [al]⟩)
    ∧ (isAlreadyExists msg = true →
      run_workflow true ((al, ScaffoldOutcome.err msg) :: rest) st = Except.error msg)
    ∧ (isAlreadyExists msg = false →
      run_workflow overwrite ((al, ScaffoldOutcome.err msg) :: rest) st = Except.error msg)
    ∧ run_workflow overwrite ((al, ScaffoldOutcome.ok) :: rest) st
        = run_workflow overwrite rest ⟨st.created + 1, st.skipped⟩
    ∧ isAlreadyExists (scaffoldExistsMsg dir) = true := by
  refine ⟨?_, ?_, ?_, rfl, isAlreadyExists_scaffoldMsg dir⟩
  · intro h; simp [run_workflow, h]
  · intro h; simp [run_workflow, h]
  · intro h; cases overwrite <;> simp [run_workflow, h]

/-- C9 witness: a conflict record is skipped with the flag off, aborts with the
flag on, and a `"disk full"` error aborts regardless. -/
theorem C9_ingest_skip_vs_abort_witness :
    run_workflow false
      [("binutils", ScaffoldOutcome.err (scaffoldExistsMsg "by_name/bi/binutils")),
        ("gcc", ScaffoldOutcome.ok)] ⟨0, []⟩
      = run_workflow false [("gcc", ScaffoldOutcome.ok)] ⟨0, ["binutils"]⟩
    ∧ run_workflow true
        [("binutils", ScaffoldOutcome.err (scaffoldExistsMsg "by_name/bi/binutils"))] ⟨0, []⟩
        = Except.error (scaffoldExistsMsg "by_name/bi/binutils")
    ∧ run_workflow false [("glibc", ScaffoldOutcome.err "disk full")] ⟨0, []⟩
        = Except.error "disk full" := by
  refine ⟨?_, ?_, ?_⟩
  · exact (C9_ingest_skip_vs_abort false [("gcc", ScaffoldOutcome.ok)] ⟨0, []⟩ "binutils"
      (scaffoldExistsMsg "by_name/bi/binutils") "d").1 (by decide)
  · exact (C9_ingest_skip_vs_abort true [] ⟨0, []⟩ "binutils"
      (scaffoldExistsMsg "by_name/bi/binutils") "d").2.1 (by decide)
  · exact (C9_ingest_skip_vs_abort false [] ⟨0, []⟩ "glibc" "disk full" "d").2.2.1 (by decide)

/-! ## binutils parser download URL — src/pkgs/by_name/bi/binutils/parser.rs
lines 89-104 -/

/-- parser.rs line 94: the trimmed href ends with `.tar.xz`, `.tar.gz` or
`.tgz`. -/
def isArchiveHref (h : String) : Bool :=
  endsWithStr h ".tar.xz" || endsWithStr h ".tar.gz" || endsWithStr h ".tgz"

/-- The download-url selection loop of `parse_binutils` (parser.rs lines
89-104), over the page's anchor `href` attributes in document order: first
trimmed href with an archive suffix wins, taken verbatim (no URL resolution). -/
def parse_binutils_download_url : List String → Option String
  | [] => none
  | href :: rest =>
    if isArchiveHref (trimStr href) then some (trimStr href)
    else parse_binutils_download_url rest

/-- Two suffix tests with different final characters exclude each other. -/
theorem endsWith_excl (s : String) (c1 c2 : Char) (p1 p2 : List Char) (hne : c1 ≠ c2)
    (h : (c1 :: p1).isPrefixOf s.toList.reverse = true) :
    (c2 :: p2).isPrefixOf s.toList.reverse = false := by
  cases hrev : s.toList.reverse with
  | nil => rw [hrev] at h; simp [List.isPrefixOf] at h
  | cons c r =>
    rw [hrev] at h
    obtain ⟨hc, -⟩ : c1 = c ∧ p1.isPrefixOf r = true := by
      simpa [List.isPrefixOf] using h
    have hcf : (c2 == c) = false := beq_eq_false_iff_ne.mpr (fun hx => hne (by rw [hc, ← hx]))
    simp [List.isPrefixOf, hcf]

/-- C10: `parse_binutils` sets `download_url` to the trimmed href of the first
anchor ending in `.tar.xz`/`.tar.gz`/`.tgz`, verbatim (a relative href stays
unresolved), and never selects `.tar.bz2` or `.zip` links. -/
theorem C10_download_url_selection (hrefs : List String) (u : String) :
    parse_binutils_download_url hrefs = (hrefs.map trimStr).find? isArchiveHref
    ∧ (endsWithStr u ".tar.bz2" = true → isArchiveHref u = false)
    ∧ (endsWithStr u ".zip" = true → isArchiveHref u = false)
    ∧ parse_binutils_download_url
        ["../patches/binutils-2.45-upstream_fix-1.patch", "x.tar.bz2", "y.zip",
          " ../../downloads/binutils-2.45.tar.xz ", "z.tar.gz"]
        = some "../../downloads/binutils-2.45.tar.xz" := by
  refine ⟨?_, ?_, ?_, by decide⟩
  · induction hrefs with
    | nil => simp [parse_binutils_download_url]
    | cons h t ih =>
      cases hp : isArchiveHref (trimStr h) <;>
        simp [parse_binutils_download_url, hp, ih, List.find?]
  · intro h
    unfold endsWithStr at h
    unfold isArchiveHref endsWithStr
    have hb : ".tar.bz2".toList.reverse = '2' :: ['z', 'b', '.', 'r', 'a', 't', '.'] := by
      decide
    have hxz : ".tar.xz".toList.reverse = 'z' :: ['x', '.', 'r', 'a', 't', '.'] := by decide
    have hgz : ".tar.gz".toList.reverse = 'z' :: ['g', '.', 'r', 'a', 't', '.'] := by decide
    have htg : ".tgz".toList.reverse = 'z' :: ['g', 't', '.'] := by decide
    rw [hb] at h
    rw [hxz, hgz, htg, endsWith_excl u '2' 'z' _ _ (by decide) h,
      endsWith_excl u '2' 'z' _ _ (by decide) h, endsWith_excl u '2' 'z' _ _ (by decide) h]
    rfl
  · intro h
    unfold endsWithStr at h
    unfold isArchiveHref endsWithStr
    have hz : ".zip".toList.reverse = 'p' :: ['i', 'z', '.'] := by decide
    have hxz : ".tar.xz".toList.reverse = 'z' :: ['x', '.', 'r', 'a', 't', '.'] := by decide
    have hgz : ".tar.gz".toList.reverse = 'z' :: ['g', '.', 'r', 'a', 't', '.'] := by decide
    have htg : ".tgz".toList.reverse = 'z' :: ['g', 't', '.'] := by decide
    rw [hz] at h
    rw [hxz, hgz, htg, endsWith_excl u 'p' 'z' _ _ (by decide) h,
      endsWith_excl u 'p' 'z' _ _ (by decide) h, endsWith_excl u 'p' 'z' _ _ (by decide) h]
    rfl

/-- C10 witness: the suffix-exclusion parts at concrete links. -/
theorem C10_download_url_selection_witness :
    isArchiveHref "binutils-2.45.tar.bz2" = false
    ∧ isArchiveHref "binutils-2.45.zip" = false :=
  ⟨(C10_download_url_selection [] "binutils-2.45.tar.bz2").2.1 (by decide),
    (C10_download_url_selection [] "binutils-2.45.zip").2.2.1 (by decide)⟩

/-! ## configure-arg substitution —
src/pkgs/by_name/bi/binutils/cross_toolchain.rs lines 197-204 -/

/-- Rust `str::replace` scan: on a match emit the replacement and resume after
the matched span (the replacement is not rescanned); the fuel is the input
length, which the scan consumes at least one character per step. -/
def replaceGo (pat rep : List Char) : Nat → List Char → List Char
  | _, [] => []
  | 0, s => s
  | fuel + 1, c :: rest =>
    if pat.isPrefixOf (c :: rest) then
      rep ++ replaceGo pat rep fuel ((c :: rest).drop pat.length)
    else c :: replaceGo pat rep fuel rest

/-- Rust `str::replace` (non-empty pattern; the code only uses `"$LFS"` and
`"$LFS_TGT"`). -/
def rustReplace (s pat rep : String) : String :=
  if pat.toList.isEmpty then s
  else String.mk (replaceGo pat.toList rep.toList s.toList.length s.toList)

/-- The configure-arg substitution of `build_binutils_from_page`
(cross_toolchain.rs lines 198-204):
`a.replace("$LFS", lfs_root).replace("$LFS_TGT", target)` — `$LFS` first. -/
def substitute_args (lfsRoot target : String) (args : List String) : List String :=
  args.map (fun a => rustReplace (rustReplace a "$LFS" lfsRoot) "$LFS_TGT" target)

/-- C2 (code bug): replacing `$LFS` before `$LFS_TGT` clobbers the `$LFS`
prefix of every `$LFS_TGT` token, so `--target=$LFS_TGT` becomes
`--target=/mnt/lfs_TGT` and never contains the resolved target triple; plain
`$LFS` tokens are substituted as intended. -/
theorem C2_lfs_tgt_clobbered :
    substitute_args "/mnt/lfs" "x86_64-lfs-linux-gnu"
        ["--target=$LFS_TGT", "--with-sysroot=$LFS"]
      = ["--target=/mnt/lfs_TGT", "--with-sysroot=/mnt/lfs"]
    ∧ containsStr "--target=/mnt/lfs_TGT" "x86_64-lfs-linux-gnu" = false := by
  refine ⟨by decide, by decide⟩

/-! ## download_files — src/downloader.rs lines 26-132 -/

/-- What happened inside one download thread up to the checksum step: the HTTP
GET / file write failed with an error, or the body was downloaded and its MD5
digest computed. -/
inductive FetchOutcome where
  | fetchErr : String → FetchOutcome
  | fetched : String → FetchOutcome
deriving DecidableEq

/-- One URL of the batch: the filename (last URL segment) and the thread's
fetch outcome. -/
structure DlJob where
  filename : String
  outcome : FetchOutcome
deriving DecidableEq

/-- The progress glyph a thread prints (downloader.rs lines 105-119): check
mark on checksum match, cross mark on mismatch, warning sign when no checksum
is known; a thread that failed before finishing prints nothing. -/
def threadGlyph (md5Map : Option (List (String × String))) (j : DlJob) : Option String :=
  match j.outcome with
  | FetchOutcome.fetchErr _ => none
  | FetchOutcome.fetched digest =>
    some (match md5Map with
      | none => "warning"
      | some m =>
        match (m.find? (fun p => p.1 == j.filename)).map Prod.snd with
        | none => "warning"
        | some expected => if expected == digest then "ok" else "mismatch")

/-- The value a thread returns (downloader.rs lines 51-121): `Err` only for
fetch/write failures — the checksum verdict is NOT part of it. -/
def threadResult (j : DlJob) : Except String Unit :=
  match j.outcome with
  | FetchOutcome.fetchErr e => Except.error e
  | FetchOutcome.fetched _ => Except.ok ()

/-- The join loop (downloader.rs lines 126-129): `handle.join().unwrap()` then
`?` — the first `Err` aborts with that single error. -/
def joinAll : List (Except String Unit) → Except String Unit
  | [] => Except.ok ()
  | Except.ok _ :: rest => joinAll rest
  | Except.error e :: _ => Except.error e

/-- `download_files` (downloader.rs lines 26-132): observable behaviour =
(per-file progress glyphs, returned batch result). -/
def download_files (md5Map : Option (List (String × String))) (jobs : List DlJob) :
    List (Option String) × Except String Unit :=
  (jobs.map (threadGlyph md5Map), joinAll (jobs.map threadResult))

theorem joinAll_ok_of_no_err :
    ∀ jobs : List DlJob,
      (jobs.all fun j => match j.outcome with
        | FetchOutcome.fetchErr _ => false
        | FetchOutcome.fetched _ => true) = true →
      joinAll (jobs.map threadResult) = Except.ok () := by
  intro jobs
  induction jobs with
  | nil => intro _; rfl
  | cons j rest ih =>
    intro h
    simp only [List.all_cons, Bool.and_eq_true] at h
    cases hj : j.outcome with
    | fetchErr e => rw [hj] at h; simp at h
    | fetched d =>
      have hok : threadResult j = Except.ok () := by unfold threadResult; rw [hj]
      simp only [List.map_cons, hok]
      exact ih h.2

/-- C1 (code bug): whenever every thread fetches its file, `download_files`
returns `Ok(())` no matter how many checksums mismatch — the mismatch only
changes a progress glyph, so the batch result never reports a
checksum-mismatch failure; and a single thread's fetch error is propagated
through `?` in the join loop, aborting the batch result with that lone error
instead of an aggregation of per-file outcomes. -/
theorem C1_batch_result_ignores_checksums (md5Map : Option (List (String × String)))
    (jobs : List DlJob) :
    ((jobs.all fun j => match j.outcome with
        | FetchOutcome.fetchErr _ => false
        | FetchOutcome.fetched _ => true) = true →
      (download_files md5Map jobs).2 = Except.ok ())
    ∧ download_files (some [("a.tar.xz", "0123"), ("b.tar.xz", "4567")])
        [⟨"a.tar.xz", FetchOutcome.fetched "0123"⟩, ⟨"b.tar.xz", FetchOutcome.fetched "ffff"⟩]
        = ([some "ok", some "mismatch"], Except.ok ())
    ∧ download_files (some [("a.tar.xz", "0123"), ("b.tar.xz", "4567")])
        [⟨"a.tar.xz", FetchOutcome.fetchErr "connection timed out"⟩,
          ⟨"b.tar.xz", FetchOutcome.fetched "4567"⟩]
        = ([none, some "ok"], Except.error "connection timed out") := by
  exact ⟨fun h => joinAll_ok_of_no_err jobs h, by rfl, by rfl⟩

/-- C1 witness: a 1-file batch whose checksum is wrong still yields `Ok`. -/
theorem C1_batch_result_ignores_checksums_witness :
    (download_files (some [("a.tar.xz", "0123")])
      [⟨"a.tar.xz", FetchOutcome.fetched "dead"⟩]).2 = Except.ok () :=
  (C1_batch_result_ignores_checksums (some [("a.tar.xz", "0123")])
    [⟨"a.tar.xz", FetchOutcome.fetched "dead"⟩]).1 (by decide)

/-- C7: the three reference titles split as the spec demands — `"Binutils-2.45
- Pass 1"`, `"LFS-Bootscripts-20250827"`, and `"XML::Parser-2.47"` (the
hyphen-before-digit rule is not fooled by name-internal `"::"`). -/
theorem C7_split_examples :
    split_name_variant "Binutils-2.45 - Pass 1" = ("Binutils", "2.45", some "Pass 1")
    ∧ split_name_variant "LFS-Bootscripts-20250827" = ("LFS-Bootscripts", "20250827", none)
    ∧ split_name_variant "XML::Parser-2.47" = ("XML::Parser", "2.47", none) := by
  refine ⟨by decide, by decide, by decide⟩

end LPkg
